import Mathlib

/-!
Shallow embedding of the analytics server (src/server.js) of the
EyesWatch/analytics_server repository, together with proofs of the
specification's claims about its aggregation core.

The server fetches transaction rows from a SQLite database, groups them
(by user name or by riven item name), accumulates revenue / expense /
quantity counters per group, derives profit and a zero-guarded profit
margin, and sorts the per-group statistics by descending profit.

Modelling conventions:
* a database row (after the `Number(...)` coercions of
  `getAllTransactions`) is a `Transaction`; numeric fields are modelled
  by `ℚ` (JavaScript numbers, exact on the integer prices/quantities the
  schema documents);
* `ingame_name` is `Option String`: `none` models a NULL/absent column,
  and the JavaScript truthiness test `tx.ingame_name || 'Unknown'` also
  sends the empty string to `'Unknown'`;
* the insertion-ordered JavaScript `Map` of groups is modelled by the
  insertion-ordered key list `seenKeys` together with `List.filter`
  (the list pushed for key `k` is exactly the sublist of transactions
  whose key is `k`, in order);
* `Array.prototype.sort` with comparator `(a, b) => b.profit - a.profit`
  is a stable sort by descending profit, modelled by Mathlib's stable
  `List.insertionSort` with the relation `profitGe`.
-/

namespace AnalyticsServer

/-- One row of the `transactions` table, as returned by
`getAllTransactions` in src/server.js (after its `Number(...)`
coercions).  `id` and `created_at` are carried but unused by the
aggregations, as in the source. -/
structure Transaction where
  id : Nat
  ingame_name : Option String
  item_type : String
  item_name : String
  transaction_type : String
  price : ℚ
  quantity : ℚ
deriving DecidableEq, Repr

/-- One element of the result array of `getUserStatistics` /
`getRivenStatistics` in src/server.js.  The `user` / `riven` field of
the source objects is the grouping key, called `key` here so one
structure serves both reports. -/
structure GroupStats where
  key : String
  profit : ℚ
  revenue : ℚ
  expense : ℚ
  number_of_trades : Nat
  purchases : ℚ
  sales : ℚ
  profit_margin : ℚ
deriving DecidableEq, Repr

/-- Grouping key of the by-user report: `tx.ingame_name || 'Unknown'`
(src/server.js line 85).  A NULL or empty name is falsy in JavaScript,
so both map to `"Unknown"`. -/
def userKey (tx : Transaction) : String :=
  match tx.ingame_name with
  | none => "Unknown"
  | some s => if s = "" then "Unknown" else s

/-- Grouping key of the by-riven report: `tx.item_name`
(src/server.js line 131); note there is no fallback here. -/
def rivenKey (tx : Transaction) : String :=
  tx.item_name

/-- `Map.set` on a missing key appends the key to the map's insertion
order; on a present key the order is unchanged. -/
def insertKey (ks : List String) (k : String) : List String :=
  if k ∈ ks then ks else ks ++ [k]

/-- The keys of the JavaScript `Map` built by the grouping loop
(src/server.js lines 83-88 and 129-134), in insertion order:
first-occurrence order of `keyOf` over the transaction list. -/
def seenKeys (keyOf : Transaction → String) (txs : List Transaction) : List String :=
  txs.foldl (fun ks tx => insertKey ks (keyOf tx)) []

/-- The list stored in the `Map` under key `k`: the transactions pushed
for `k`, in order — exactly the sublist whose key is `k`. -/
def groupOf (keyOf : Transaction → String) (txs : List Transaction) (k : String) :
    List Transaction :=
  txs.filter (fun tx => keyOf tx = k)

/-- One iteration of the accumulation loop (src/server.js lines 95-103
and 141-149) on the state `(revenue, expense, purchases, sales)`. -/
def step (acc : ℚ × ℚ × ℚ × ℚ) (tx : Transaction) : ℚ × ℚ × ℚ × ℚ :=
  if tx.transaction_type = "sale" then
    (acc.1 + tx.price, acc.2.1, acc.2.2.1, acc.2.2.2 + tx.quantity)
  else if tx.transaction_type = "purchase" then
    (acc.1, acc.2.1 + tx.price, acc.2.2.1 + tx.quantity, acc.2.2.2)
  else
    acc

/-- The accumulation loop over one group's transaction list, starting
from all-zero counters. -/
def accum (l : List Transaction) : ℚ × ℚ × ℚ × ℚ :=
  l.foldl step (0, 0, 0, 0)

/-- The statistics object pushed for one group (src/server.js
lines 104-115 and 150-161): derived profit, the zero-guarded profit
margin, and `number_of_trades = list.length`. -/
def statsFor (k : String) (l : List Transaction) : GroupStats :=
  let a := accum l
  let revenue := a.1
  let expense := a.2.1
  let purchases := a.2.2.1
  let sales := a.2.2.2
  let profit := revenue - expense
  { key := k
    profit := profit
    revenue := revenue
    expense := expense
    number_of_trades := l.length
    purchases := purchases
    sales := sales
    profit_margin := if revenue = 0 then 0 else profit / revenue }

/-- The order imposed by `result.sort((a, b) => b.profit - a.profit)`:
`a` may come before `b` when `b.profit ≤ a.profit`. -/
def profitGe (a b : GroupStats) : Prop :=
  b.profit ≤ a.profit

instance : DecidableRel profitGe := fun _ _ => inferInstanceAs (Decidable (_ ≤ _))

instance : IsTotal GroupStats profitGe :=
  ⟨fun a b => le_total b.profit a.profit⟩

instance : IsTrans GroupStats profitGe :=
  ⟨fun _ _ _ hab hbc => le_trans hbc hab⟩

/-- `result.sort((a, b) => b.profit - a.profit)` (src/server.js
lines 117 and 163): a stable sort by descending profit, modelled by the
stable `List.insertionSort`. -/
def sortByProfitDesc (l : List GroupStats) : List GroupStats :=
  l.insertionSort profitGe

/-- `getUserStatistics` (src/server.js lines 81-119), as a function of
the fetched transaction list: group every transaction by
`userKey`, build the statistics of each group in key insertion order,
and sort by descending profit. -/
def getUserStatistics (txs : List Transaction) : List GroupStats :=
  sortByProfitDesc
    ((seenKeys userKey txs).map (fun k => statsFor k (groupOf userKey txs k)))

/-- The pre-grouping filter of the riven report (src/server.js
line 128): only transactions with `item_type === 'riven'`. -/
def rivenFilter (txs : List Transaction) : List Transaction :=
  txs.filter (fun tx => tx.item_type = "riven")

/-- `getRivenStatistics` (src/server.js lines 127-165), as a function of
the fetched transaction list: keep only `item_type === 'riven'` rows,
group them by `rivenKey`, build each group's statistics, and sort by
descending profit. -/
def getRivenStatistics (txs : List Transaction) : List GroupStats :=
  sortByProfitDesc
    ((seenKeys rivenKey (rivenFilter txs)).map
      (fun k => statsFor k (groupOf rivenKey (rivenFilter txs) k)))

/-! ### Specification-side directional sums

The spec describes a group's counters as sums over the group's records
of one direction; these definitions follow those words, and the lemmas
below connect them to the accumulation loop of the source. -/

/-- Sum of `price` over the `sale`-direction records of a list. -/
def salePriceSum (l : List Transaction) : ℚ :=
  ((l.filter (fun tx => tx.transaction_type = "sale")).map Transaction.price).sum

/-- Sum of `price` over the `purchase`-direction records of a list. -/
def purchasePriceSum (l : List Transaction) : ℚ :=
  ((l.filter (fun tx => tx.transaction_type = "purchase")).map Transaction.price).sum

/-- Sum of `quantity` over the `sale`-direction records of a list. -/
def saleQtySum (l : List Transaction) : ℚ :=
  ((l.filter (fun tx => tx.transaction_type = "sale")).map Transaction.quantity).sum

/-- Sum of `quantity` over the `purchase`-direction records of a list. -/
def purchaseQtySum (l : List Transaction) : ℚ :=
  ((l.filter (fun tx => tx.transaction_type = "purchase")).map Transaction.quantity).sum

theorem salePriceSum_cons (tx : Transaction) (l : List Transaction) :
    salePriceSum (tx :: l) =
      (if tx.transaction_type = "sale" then tx.price else 0) + salePriceSum l := by
  by_cases h : tx.transaction_type = "sale" <;>
    simp [salePriceSum, List.filter_cons, h]

theorem purchasePriceSum_cons (tx : Transaction) (l : List Transaction) :
    purchasePriceSum (tx :: l) =
      (if tx.transaction_type = "purchase" then tx.price else 0) + purchasePriceSum l := by
  by_cases h : tx.transaction_type = "purchase" <;>
    simp [purchasePriceSum, List.filter_cons, h]

theorem saleQtySum_cons (tx : Transaction) (l : List Transaction) :
    saleQtySum (tx :: l) =
      (if tx.transaction_type = "sale" then tx.quantity else 0) + saleQtySum l := by
  by_cases h : tx.transaction_type = "sale" <;>
    simp [saleQtySum, List.filter_cons, h]

theorem purchaseQtySum_cons (tx : Transaction) (l : List Transaction) :
    purchaseQtySum (tx :: l) =
      (if tx.transaction_type = "purchase" then tx.quantity else 0) + purchaseQtySum l := by
  by_cases h : tx.transaction_type = "purchase" <;>
    simp [purchaseQtySum, List.filter_cons, h]

/-- The accumulation loop computes exactly the four directional sums,
from any starting state. -/
theorem foldl_step_eq :
    ∀ (l : List Transaction) (a : ℚ × ℚ × ℚ × ℚ),
      l.foldl step a =
        (a.1 + salePriceSum l, a.2.1 + purchasePriceSum l,
          a.2.2.1 + purchaseQtySum l, a.2.2.2 + saleQtySum l)
  | [], a => by
    simp [salePriceSum, purchasePriceSum, purchaseQtySum, saleQtySum]
  | tx :: l, a => by
    rw [List.foldl_cons, foldl_step_eq l, salePriceSum_cons, purchasePriceSum_cons,
      purchaseQtySum_cons, saleQtySum_cons]
    unfold step
    by_cases h1 : tx.transaction_type = "sale"
    · simp only [h1, if_pos]
      simp [Prod.ext_iff]
      constructor <;> ring
    · by_cases h2 : tx.transaction_type = "purchase" <;>
        · simp only [h1, h2, if_neg, if_pos, if_true, if_false]
          simp [Prod.ext_iff]
          try constructor <;> ring

/-- The loop starting from all-zero counters yields the directional
sums. -/
theorem accum_eq (l : List Transaction) :
    accum l = (salePriceSum l, purchasePriceSum l, purchaseQtySum l, saleQtySum l) := by
  simpa using foldl_step_eq l (0, 0, 0, 0)

theorem statsFor_key (k : String) (l : List Transaction) : (statsFor k l).key = k := rfl

theorem statsFor_number_of_trades (k : String) (l : List Transaction) :
    (statsFor k l).number_of_trades = l.length := rfl

theorem statsFor_revenue (k : String) (l : List Transaction) :
    (statsFor k l).revenue = salePriceSum l := by
  simp [statsFor, accum_eq]

theorem statsFor_expense (k : String) (l : List Transaction) :
    (statsFor k l).expense = purchasePriceSum l := by
  simp [statsFor, accum_eq]

theorem statsFor_purchases (k : String) (l : List Transaction) :
    (statsFor k l).purchases = purchaseQtySum l := by
  simp [statsFor, accum_eq]

theorem statsFor_sales (k : String) (l : List Transaction) :
    (statsFor k l).sales = saleQtySum l := by
  simp [statsFor, accum_eq]

theorem statsFor_profit (k : String) (l : List Transaction) :
    (statsFor k l).profit = (statsFor k l).revenue - (statsFor k l).expense := rfl

theorem statsFor_profit_margin (k : String) (l : List Transaction) :
    (statsFor k l).profit_margin =
      if (statsFor k l).revenue = 0 then 0
      else (statsFor k l).profit / (statsFor k l).revenue := rfl

/-! ### The grouping map's key list -/

theorem mem_insertKey {ks : List String} {k a : String} :
    a ∈ insertKey ks k ↔ a ∈ ks ∨ a = k := by
  by_cases hk : k ∈ ks <;> simp [insertKey, hk]
  exact fun h => h ▸ hk

theorem nodup_insertKey {ks : List String} (h : ks.Nodup) (k : String) :
    (insertKey ks k).Nodup := by
  by_cases hk : k ∈ ks <;> simp [insertKey, hk, List.nodup_append, h]

theorem mem_foldl_insertKey (keyOf : Transaction → String) :
    ∀ (txs : List Transaction) (ks : List String) (a : String),
      (a ∈ txs.foldl (fun ks tx => insertKey ks (keyOf tx)) ks ↔
        a ∈ ks ∨ ∃ tx ∈ txs, keyOf tx = a)
  | [], ks, a => by simp
  | tx :: txs, ks, a => by
    rw [List.foldl_cons, mem_foldl_insertKey keyOf txs]
    simp only [mem_insertKey, List.mem_cons, or_assoc]
    constructor
    · rintro (h | rfl | h)
      · exact Or.inl h
      · exact Or.inr ⟨tx, Or.inl rfl, rfl⟩
      · obtain ⟨t, ht, rfl⟩ := h
        exact Or.inr ⟨t, Or.inr ht, rfl⟩
    · rintro (h | ⟨t, ht | ht, rfl⟩)
      · exact Or.inl h
      · exact Or.inr (Or.inl (ht ▸ rfl))
      · exact Or.inr (Or.inr ⟨t, ht, rfl⟩)

theorem nodup_foldl_insertKey (keyOf : Transaction → String) :
    ∀ (txs : List Transaction) (ks : List String), ks.Nodup →
      (txs.foldl (fun ks tx => insertKey ks (keyOf tx)) ks).Nodup
  | [], _, h => h
  | tx :: txs, _, h =>
    nodup_foldl_insertKey keyOf txs _ (nodup_insertKey h (keyOf tx))

theorem mem_seenKeys {keyOf : Transaction → String} {txs : List Transaction} {a : String} :
    a ∈ seenKeys keyOf txs ↔ ∃ tx ∈ txs, keyOf tx = a := by
  rw [seenKeys, mem_foldl_insertKey]
  simp

theorem nodup_seenKeys (keyOf : Transaction → String) (txs : List Transaction) :
    (seenKeys keyOf txs).Nodup :=
  nodup_foldl_insertKey keyOf txs [] List.nodup_nil

/-! ### The sort -/

theorem mem_sortByProfitDesc {l : List GroupStats} {g : GroupStats} :
    g ∈ sortByProfitDesc l ↔ g ∈ l :=
  List.mem_insertionSort profitGe

theorem perm_sortByProfitDesc (l : List GroupStats) :
    List.Perm (sortByProfitDesc l) l :=
  List.perm_insertionSort profitGe l

theorem sorted_sortByProfitDesc (l : List GroupStats) :
    List.Sorted profitGe (sortByProfitDesc l) :=
  List.sorted_insertionSort profitGe l

/-! ### Membership in the two reports -/

theorem mem_getUserStatistics {txs : List Transaction} {g : GroupStats} :
    g ∈ getUserStatistics txs ↔
      ∃ k ∈ seenKeys userKey txs, statsFor k (groupOf userKey txs k) = g := by
  rw [getUserStatistics, mem_sortByProfitDesc, List.mem_map]

theorem mem_getRivenStatistics {txs : List Transaction} {g : GroupStats} :
    g ∈ getRivenStatistics txs ↔
      ∃ k ∈ seenKeys rivenKey (rivenFilter txs),
        statsFor k (groupOf rivenKey (rivenFilter txs) k) = g := by
  rw [getRivenStatistics, mem_sortByProfitDesc, List.mem_map]

/-- Every element of the by-user report is the statistics of the group
of its own key. -/
theorem eq_statsFor_of_mem_user {txs : List Transaction} {g : GroupStats}
    (h : g ∈ getUserStatistics txs) :
    g = statsFor g.key (groupOf userKey txs g.key) := by
  obtain ⟨k, _, he⟩ := mem_getUserStatistics.mp h
  subst he
  rw [statsFor_key]

/-- Every element of the by-riven report is the statistics of the group
of its own key inside the riven-filtered list. -/
theorem eq_statsFor_of_mem_riven {txs : List Transaction} {g : GroupStats}
    (h : g ∈ getRivenStatistics txs) :
    g = statsFor g.key (groupOf rivenKey (rivenFilter txs) g.key) := by
  obtain ⟨k, _, he⟩ := mem_getRivenStatistics.mp h
  subst he
  rw [statsFor_key]

/-- The by-user grouping key is never the empty string: a truthy name
is returned as-is and a falsy one is replaced by "Unknown". -/
theorem userKey_ne_empty (tx : Transaction) : userKey tx ≠ "" := by
  rcases h : tx.ingame_name with - | s
  · simp [userKey, h]
  · by_cases hs : s = "" <;> simp [userKey, h, hs]

/-! ### Partitioning lemmas -/

/-- Removing the records keyed `k` does not change the group of any
other key. -/
theorem groupOf_filter_ne (keyOf : Transaction → String) (txs : List Transaction)
    {k k' : String} (hne : k' ≠ k) :
    groupOf keyOf (txs.filter (fun tx => ¬ keyOf tx = k)) k' = groupOf keyOf txs k' := by
  unfold groupOf
  rw [List.filter_filter]
  apply List.filter_congr
  intro tx _
  by_cases h : keyOf tx = k' <;> simp [h, hne]

/-- Summing the group sizes over a duplicate-free key list covering all
records counts every record exactly once. -/
theorem sum_groupOf_length (keyOf : Transaction → String) :
    ∀ (ks : List String) (txs : List Transaction), ks.Nodup →
      (∀ tx ∈ txs, keyOf tx ∈ ks) →
      (ks.map (fun k => (groupOf keyOf txs k).length)).sum = txs.length
  | [], txs, _, hcov => by
    have hnil : txs = [] :=
      List.eq_nil_iff_forall_not_mem.mpr (fun tx htx => by simpa using hcov tx htx)
    simp [hnil]
  | k :: ks, txs, hnd, hcov => by
    rw [List.map_cons, List.sum_cons]
    obtain ⟨hk, hnd'⟩ := List.nodup_cons.mp hnd
    have hmap : ks.map (fun q => (groupOf keyOf txs q).length)
        = ks.map (fun q => (groupOf keyOf (txs.filter (fun tx => ¬ keyOf tx = k)) q).length) := by
      apply List.map_congr_left
      intro q hq
      rw [groupOf_filter_ne keyOf txs (by rintro rfl; exact hk hq)]
    have hcov' : ∀ tx ∈ txs.filter (fun tx => ¬ keyOf tx = k), keyOf tx ∈ ks := by
      intro tx htx
      obtain ⟨htx', hne⟩ := List.mem_filter.mp htx
      have := hcov tx htx'
      simp only [List.mem_cons] at this
      rcases this with h | h
      · exact absurd h (by simpa using hne)
      · exact h
    rw [hmap, sum_groupOf_length keyOf ks _ hnd' hcov']
    have hsplit := List.length_eq_length_filter_add (l := txs) (fun tx => keyOf tx = k)
    have hfeq : List.filter (fun x => !decide (keyOf x = k)) txs
        = txs.filter (fun tx => ¬ keyOf tx = k) :=
      List.filter_congr (fun tx _ => by simp)
    rw [groupOf, hsplit, hfeq]

/-- A list of group statistics with duplicate-free keys has at most one
element carrying any given key. -/
theorem length_filter_key_le_one {l : List GroupStats}
    (h : (l.map GroupStats.key).Nodup) (c : String) :
    (l.filter (fun g => g.key = c)).length ≤ 1 := by
  induction l with
  | nil => simp
  | cons g l ih =>
    rw [List.map_cons, List.nodup_cons] at h
    by_cases hg : g.key = c
    · rw [List.filter_cons_of_pos (by simpa using hg)]
      have hempty : l.filter (fun q => q.key = c) = [] := by
        rw [List.filter_eq_nil_iff]
        intro q hq
        simp only [decide_eq_true_eq]
        intro hkq
        exact h.1 (hg ▸ hkq ▸ List.mem_map_of_mem GroupStats.key hq)
      simp [hempty]
    · rw [List.filter_cons_of_neg (by simpa using hg)]
      exact ih h.2

/-- The keys of the by-user report are a permutation of the insertion-
ordered key list of the grouping map. -/
theorem map_key_getUserStatistics (txs : List Transaction) :
    List.Perm ((getUserStatistics txs).map GroupStats.key) (seenKeys userKey txs) := by
  have h :=
    (perm_sortByProfitDesc
      ((seenKeys userKey txs).map (fun k => statsFor k (groupOf userKey txs k)))).map
      GroupStats.key
  rw [List.map_map] at h
  have he : (seenKeys userKey txs).map
      (GroupStats.key ∘ fun k => statsFor k (groupOf userKey txs k))
      = seenKeys userKey txs := by
    conv_rhs => rw [← List.map_id (seenKeys userKey txs)]
    exact List.map_congr_left (fun k _ => by simp [statsFor_key])
  rw [getUserStatistics]
  rwa [he] at h

/-- The keys of the by-riven report are a permutation of the insertion-
ordered key list of its grouping map. -/
theorem map_key_getRivenStatistics (txs : List Transaction) :
    List.Perm ((getRivenStatistics txs).map GroupStats.key)
      (seenKeys rivenKey (rivenFilter txs)) := by
  have h :=
    (perm_sortByProfitDesc
      ((seenKeys rivenKey (rivenFilter txs)).map
        (fun k => statsFor k (groupOf rivenKey (rivenFilter txs) k)))).map
      GroupStats.key
  rw [List.map_map] at h
  have he : (seenKeys rivenKey (rivenFilter txs)).map
      (GroupStats.key ∘ fun k => statsFor k (groupOf rivenKey (rivenFilter txs) k))
      = seenKeys rivenKey (rivenFilter txs) := by
    conv_rhs => rw [← List.map_id (seenKeys rivenKey (rivenFilter txs))]
    exact List.map_congr_left (fun k _ => by simp [statsFor_key])
  rw [getRivenStatistics]
  rwa [he] at h

/-! ### The claims

`Rat`'s arithmetic operations are `@[irreducible]` in the ambient
library, which blocks `decide` on fully concrete report evaluations;
they are restored to their normal reducibility here (this only affects
unfolding hints, not the logic). -/

set_option allowUnsafeReducibility true

attribute [local semireducible] Rat.add Rat.sub Rat.mul Rat.div Rat.inv Rat.neg

/-- C1: for the three-record input sequence of the spec's example
scenario (actor fields and directions/prices/quantities as given, the
fields the by-actor report ignores being arbitrary), `getUserStatistics`
returns exactly the two-element ordered list of the spec: group "A"
with revenue 100, expense 40, profit 60, margin 3/5, 2 trades,
1 purchase-quantity and 1 sale-quantity, then group "B" with revenue
50, expense 0, profit 50, margin 1, 1 trade, 0 purchase-quantity and
2 sale-quantity. -/
theorem user_report_example (i1 i2 i3 : Nat) (c1 c2 c3 n1 n2 n3 : String) :
    getUserStatistics
      [⟨i1, some "A", c1, n1, "sale", 100, 1⟩,
       ⟨i2, some "A", c2, n2, "purchase", 40, 1⟩,
       ⟨i3, some "B", c3, n3, "sale", 50, 2⟩] =
      [⟨"A", 60, 100, 40, 2, 1, 1, 3 / 5⟩, ⟨"B", 50, 50, 0, 1, 0, 2, 1⟩] := by
  simp only [getUserStatistics, sortByProfitDesc, seenKeys, insertKey, groupOf, statsFor,
    accum, step, userKey, List.insertionSort, List.orderedInsert, List.foldl, List.filter,
    List.map, profitGe, String.reduceEq, decide_False, decide_True, if_true, if_false,
    List.mem_cons, List.mem_singleton, List.not_mem_nil, or_false, or_true, false_or,
    reduceIte, List.length_cons, List.length_nil]
  norm_num

/-- C2: in both reports, every output group's `profit` equals its
`revenue` minus its `expense`, where `revenue` is the sum of `price`
over the group's sale-direction records and `expense` the sum of
`price` over its purchase-direction records. -/
theorem profit_conservation (txs : List Transaction) (g : GroupStats) :
    (g ∈ getUserStatistics txs →
      g.profit = g.revenue - g.expense ∧
      g.revenue = salePriceSum (groupOf userKey txs g.key) ∧
      g.expense = purchasePriceSum (groupOf userKey txs g.key)) ∧
    (g ∈ getRivenStatistics txs →
      g.profit = g.revenue - g.expense ∧
      g.revenue = salePriceSum (groupOf rivenKey (rivenFilter txs) g.key) ∧
      g.expense = purchasePriceSum (groupOf rivenKey (rivenFilter txs) g.key)) := by
  constructor
  · intro h
    obtain ⟨k, -, he⟩ := mem_getUserStatistics.mp h
    subst he
    rw [statsFor_key]
    exact ⟨statsFor_profit _ _, statsFor_revenue _ _, statsFor_expense _ _⟩
  · intro h
    obtain ⟨k, -, he⟩ := mem_getRivenStatistics.mp h
    subst he
    rw [statsFor_key]
    exact ⟨statsFor_profit _ _, statsFor_revenue _ _, statsFor_expense _ _⟩

theorem profit_conservation_witness :
    (⟨"A", 10, 10, 0, 1, 0, 2, 1⟩ : GroupStats).profit
        = (⟨"A", 10, 10, 0, 1, 0, 2, 1⟩ : GroupStats).revenue
          - (⟨"A", 10, 10, 0, 1, 0, 2, 1⟩ : GroupStats).expense ∧
    (⟨"A", 10, 10, 0, 1, 0, 2, 1⟩ : GroupStats).revenue
        = salePriceSum (groupOf userKey [⟨1, some "A", "riven", "r1", "sale", 10, 2⟩] "A") ∧
    (⟨"A", 10, 10, 0, 1, 0, 2, 1⟩ : GroupStats).expense
        = purchasePriceSum (groupOf userKey [⟨1, some "A", "riven", "r1", "sale", 10, 2⟩] "A") :=
  (profit_conservation [⟨1, some "A", "riven", "r1", "sale", 10, 2⟩]
    ⟨"A", 10, 10, 0, 1, 0, 2, 1⟩).1 (by decide)

/-- C3: in both reports, a group with revenue exactly 0 has
profit_margin exactly 0 (the guarded branch, not a division), and a
group with nonzero revenue has profit_margin equal to profit divided
by revenue. -/
theorem profit_margin_guard (txs : List Transaction) (g : GroupStats)
    (h : g ∈ getUserStatistics txs ∨ g ∈ getRivenStatistics txs) :
    (g.revenue = 0 → g.profit_margin = 0) ∧
    (g.revenue ≠ 0 → g.profit_margin = g.profit / g.revenue) := by
  have he : g.profit_margin = if g.revenue = 0 then 0 else g.profit / g.revenue := by
    rcases h with h | h
    · obtain ⟨k, -, he⟩ := mem_getUserStatistics.mp h
      subst he
      exact statsFor_profit_margin _ _
    · obtain ⟨k, -, he⟩ := mem_getRivenStatistics.mp h
      subst he
      exact statsFor_profit_margin _ _
  constructor
  · intro h0
    rw [he, if_pos h0]
  · intro h0
    rw [he, if_neg h0]

theorem profit_margin_guard_witness :
    ((⟨"A", 10, 10, 0, 1, 0, 2, 1⟩ : GroupStats).revenue = 0 →
      (⟨"A", 10, 10, 0, 1, 0, 2, 1⟩ : GroupStats).profit_margin = 0) ∧
    ((⟨"A", 10, 10, 0, 1, 0, 2, 1⟩ : GroupStats).revenue ≠ 0 →
      (⟨"A", 10, 10, 0, 1, 0, 2, 1⟩ : GroupStats).profit_margin
        = (⟨"A", 10, 10, 0, 1, 0, 2, 1⟩ : GroupStats).profit
          / (⟨"A", 10, 10, 0, 1, 0, 2, 1⟩ : GroupStats).revenue) :=
  profit_margin_guard [⟨1, some "A", "riven", "r1", "sale", 10, 2⟩]
    ⟨"A", 10, 10, 0, 1, 0, 2, 1⟩ (Or.inl (by decide))

/-- C4: both reports are sorted by profit in descending order: for any
two adjacent elements of the output, the first's profit is greater
than or equal to the second's. -/
theorem report_sorted_by_profit (txs : List Transaction) :
    List.Chain' (fun a b => b.profit ≤ a.profit) (getUserStatistics txs) ∧
    List.Chain' (fun a b => b.profit ≤ a.profit) (getRivenStatistics txs) :=
  ⟨(sorted_sortByProfitDesc _).chain', (sorted_sortByProfitDesc _).chain'⟩

/-- C5: the sum of `number_of_trades` over all groups of a report
equals the number of input records passing that report's filter — all
records for the by-actor report, the `item_type = "riven"` records for
the by-riven report. -/
theorem trades_partition (txs : List Transaction) :
    ((getUserStatistics txs).map GroupStats.number_of_trades).sum = txs.length ∧
    ((getRivenStatistics txs).map GroupStats.number_of_trades).sum
      = (rivenFilter txs).length := by
  constructor
  · have hperm :=
      (perm_sortByProfitDesc
        ((seenKeys userKey txs).map (fun k => statsFor k (groupOf userKey txs k)))).map
        GroupStats.number_of_trades
    rw [getUserStatistics, hperm.sum_eq, List.map_map]
    have he : (seenKeys userKey txs).map
        (GroupStats.number_of_trades ∘ fun k => statsFor k (groupOf userKey txs k))
        = (seenKeys userKey txs).map (fun k => (groupOf userKey txs k).length) :=
      List.map_congr_left (fun k _ => by simp [statsFor_number_of_trades])
    rw [he]
    exact sum_groupOf_length userKey _ txs (nodup_seenKeys _ _)
      (fun tx htx => mem_seenKeys.mpr ⟨tx, htx, rfl⟩)
  · have hperm :=
      (perm_sortByProfitDesc
        ((seenKeys rivenKey (rivenFilter txs)).map
          (fun k => statsFor k (groupOf rivenKey (rivenFilter txs) k)))).map
        GroupStats.number_of_trades
    rw [getRivenStatistics, hperm.sum_eq, List.map_map]
    have he : (seenKeys rivenKey (rivenFilter txs)).map
        (GroupStats.number_of_trades ∘
          fun k => statsFor k (groupOf rivenKey (rivenFilter txs) k))
        = (seenKeys rivenKey (rivenFilter txs)).map
            (fun k => (groupOf rivenKey (rivenFilter txs) k).length) :=
      List.map_congr_left (fun k _ => by simp [statsFor_number_of_trades])
    rw [he]
    exact sum_groupOf_length rivenKey _ (rivenFilter txs) (nodup_seenKeys _ _)
      (fun tx htx => mem_seenKeys.mpr ⟨tx, htx, rfl⟩)

/-- C6: the by-riven report is derived only from records whose
`item_type` is `"riven"`: any two inputs with the same riven-filtered
sublist (in particular, inputs differing only in non-riven records,
even ones sharing an `item_name` with riven records) produce the same
report. -/
theorem riven_category_restriction (txs1 txs2 : List Transaction)
    (h : rivenFilter txs1 = rivenFilter txs2) :
    getRivenStatistics txs1 = getRivenStatistics txs2 := by
  rw [getRivenStatistics, getRivenStatistics, h]

theorem riven_category_restriction_witness :
    rivenFilter
        [⟨1, some "A", "riven", "Kronen", "sale", 10, 1⟩,
         ⟨2, some "B", "item", "Kronen", "sale", 99, 5⟩]
      = rivenFilter [⟨1, some "A", "riven", "Kronen", "sale", 10, 1⟩] ∧
    getRivenStatistics
        [⟨1, some "A", "riven", "Kronen", "sale", 10, 1⟩,
         ⟨2, some "B", "item", "Kronen", "sale", 99, 5⟩]
      = getRivenStatistics [⟨1, some "A", "riven", "Kronen", "sale", 10, 1⟩] :=
  ⟨by decide, riven_category_restriction _ _ (by decide)⟩

/-- C7: in the by-actor report, a record with absent or empty actor
name gets the grouping key "Unknown"; the output has at most one group
keyed "Unknown"; and every input record's key (in particular
"Unknown") does appear as some output group's key. -/
theorem unknown_actor_grouping :
    (∀ tx : Transaction, tx.ingame_name = none ∨ tx.ingame_name = some "" →
      userKey tx = "Unknown") ∧
    (∀ txs : List Transaction,
      ((getUserStatistics txs).filter (fun g => g.key = "Unknown")).length ≤ 1) ∧
    (∀ txs : List Transaction, ∀ tx ∈ txs,
      ∃ g ∈ getUserStatistics txs, g.key = userKey tx) := by
  refine ⟨?_, ?_, ?_⟩
  · rintro tx (h | h) <;> simp [userKey, h]
  · intro txs
    exact length_filter_key_le_one
      ((map_key_getUserStatistics txs).nodup_iff.mpr (nodup_seenKeys _ _)) _
  · intro txs tx htx
    exact ⟨statsFor (userKey tx) (groupOf userKey txs (userKey tx)),
      mem_getUserStatistics.mpr ⟨userKey tx, mem_seenKeys.mpr ⟨tx, htx, rfl⟩, rfl⟩,
      statsFor_key _ _⟩

theorem unknown_actor_grouping_witness :
    userKey ⟨1, none, "item", "x", "sale", 5, 1⟩ = "Unknown" ∧
    ((getUserStatistics
        [⟨1, none, "item", "x", "sale", 5, 1⟩,
         ⟨2, some "", "item", "y", "purchase", 3, 1⟩]).filter
      (fun g => g.key = "Unknown")).length ≤ 1 ∧
    ∃ g ∈ getUserStatistics
        [⟨1, none, "item", "x", "sale", 5, 1⟩,
         ⟨2, some "", "item", "y", "purchase", 3, 1⟩],
      g.key = userKey ⟨1, none, "item", "x", "sale", 5, 1⟩ :=
  ⟨unknown_actor_grouping.1 _ (Or.inl rfl),
   unknown_actor_grouping.2.1 _,
   unknown_actor_grouping.2.2 _ _ (by decide)⟩

/-- C8: a record whose direction is neither "sale" nor "purchase"
contributes nothing to its group's revenue, expense, purchases or
sales accumulators (the loop shared by both reports), but still
increments the group's `number_of_trades` by one. -/
theorem other_direction_trade_count (k : String) (l : List Transaction) (tx : Transaction)
    (h1 : tx.transaction_type ≠ "sale") (h2 : tx.transaction_type ≠ "purchase") :
    statsFor k (l ++ [tx]) =
      { statsFor k l with number_of_trades := (statsFor k l).number_of_trades + 1 } := by
  have haccum : accum (l ++ [tx]) = accum l := by
    rw [accum, accum, List.foldl_append]
    simp [List.foldl, step, h1, h2]
  simp [statsFor, haccum, List.length_append]

theorem other_direction_trade_count_witness :
    statsFor "A"
        ([⟨1, some "A", "item", "x", "sale", 5, 1⟩]
          ++ [⟨2, some "A", "item", "x", "trade", 7, 1⟩]) =
      { statsFor "A" [⟨1, some "A", "item", "x", "sale", 5, 1⟩] with
        number_of_trades :=
          (statsFor "A" [⟨1, some "A", "item", "x", "sale", 5, 1⟩]).number_of_trades + 1 } :=
  other_direction_trade_count "A" _ _ (by decide) (by decide)

/-- C9 (counterexample): the claim that every group key in the output
of both reports is non-empty fails on the code: a riven record whose
`item_name` is the empty string yields a group keyed `""` in the
by-riven report, because `getRivenStatistics` uses `tx.item_name` with
no placeholder fallback. -/
theorem riven_key_empty_counterexample :
    ¬ (∀ g ∈ getRivenStatistics [⟨1, some "A", "riven", "", "sale", 10, 1⟩],
        g.key ≠ "") := by
  decide

/-- C9 (amended): every group key of the by-actor report is a
non-empty string (absent or empty actor names having been replaced by
"Unknown"); every group key of the by-riven report is the `item_name`
of some riven-category input record, taken verbatim — it may be the
empty string. -/
theorem grouping_keys_amended (txs : List Transaction) :
    (∀ g ∈ getUserStatistics txs, g.key ≠ "") ∧
    (∀ g ∈ getRivenStatistics txs,
      ∃ tx ∈ txs, tx.item_type = "riven" ∧ g.key = tx.item_name) := by
  constructor
  · intro g hg
    obtain ⟨k, hk, he⟩ := mem_getUserStatistics.mp hg
    obtain ⟨tx, -, hkey⟩ := mem_seenKeys.mp hk
    subst he
    rw [statsFor_key, ← hkey]
    exact userKey_ne_empty tx
  · intro g hg
    obtain ⟨k, hk, he⟩ := mem_getRivenStatistics.mp hg
    obtain ⟨tx, htx, hkey⟩ := mem_seenKeys.mp hk
    obtain ⟨htx', hriv⟩ := List.mem_filter.mp htx
    refine ⟨tx, htx', by simpa using hriv, ?_⟩
    subst he
    rw [statsFor_key, ← hkey]
    rfl

theorem grouping_keys_amended_witness :
    (⟨"Unknown", 10, 10, 0, 1, 0, 1, 1⟩ : GroupStats).key ≠ "" ∧
    ∃ tx ∈ [(⟨1, some "", "riven", "", "sale", 10, 1⟩ : Transaction)],
      tx.item_type = "riven"
        ∧ (⟨"", 10, 10, 0, 1, 0, 1, 1⟩ : GroupStats).key = tx.item_name :=
  ⟨(grouping_keys_amended [⟨1, some "", "riven", "", "sale", 10, 1⟩]).1
      ⟨"Unknown", 10, 10, 0, 1, 0, 1, 1⟩ (by decide),
   (grouping_keys_amended [⟨1, some "", "riven", "", "sale", 10, 1⟩]).2
      ⟨"", 10, 10, 0, 1, 0, 1, 1⟩ (by decide)⟩

/-- C10: in both reports the group keys of the output are pairwise
distinct: each grouping key yields exactly one statistics entry. -/
theorem report_keys_distinct (txs : List Transaction) :
    ((getUserStatistics txs).map GroupStats.key).Nodup ∧
    ((getRivenStatistics txs).map GroupStats.key).Nodup :=
  ⟨(map_key_getUserStatistics txs).nodup_iff.mpr (nodup_seenKeys _ _),
   (map_key_getRivenStatistics txs).nodup_iff.mpr (nodup_seenKeys _ _)⟩

end AnalyticsServer
